import Mathlib

/-!
Verification of the bidirectional OpenAI/Anthropic chat-protocol adapter
(package `adapter`, file `cmd/adapter/main.go` of the bridge repository).

The development shallowly embeds the adapter core:

* dynamically typed JSON values decoded by the Go `encoding/json` package
  are modelled by the inductive `Json`; actual JSON text parsing is an
  external collaborator and is passed in as a function parameter
  `parse : String → Option Json` wherever the Go code calls
  `json.Valid` / `json.Unmarshal` on an argument string;
* wire framing of the two SSE streams is modelled at the line level:
  each line is pre-classified into the same cases the Go reader loop
  distinguishes (blank or non-data line, malformed JSON payload, the
  `[DONE]` terminator, a successfully decoded chunk), so every branch of
  the Go loop corresponds to one constructor;
* Go maps keyed by small integers are modelled by association lists with
  `alLookup` / `alUpsert`, and the `sort.Ints` call on the collected key
  set is modelled by `List.insertionSort` on the key list.
-/

namespace Bridge

mutual

/-- Model of a decoded JSON value (the Go `interface\x7b\x7d` produced by
`encoding/json`). Arrays and objects carry their own list types so that
all recursions below are structural. -/
inductive Json where
  | null : Json
  | bool : Bool → Json
  | num : Int → Json
  | str : String → Json
  | arr : JsonList → Json
  | obj : JsonFields → Json
  deriving DecidableEq

inductive JsonList where
  | nil : JsonList
  | cons : Json → JsonList → JsonList
  deriving DecidableEq

inductive JsonFields where
  | nil : JsonFields
  | cons : String → Json → JsonFields → JsonFields
  deriving DecidableEq

end

/-- Escape one character the way the JSON encoder quotes string content
(restricted to the escapes relevant here; the Go encoder additionally
escapes HTML characters, which never matters for the values in scope). -/
def escChar (c : Char) : String :=
  if c = '"' then "\\\""
  else if c = '\\' then "\\\\"
  else if c = '\n' then "\\n"
  else if c = '\t' then "\\t"
  else if c = '\r' then "\\r"
  else String.singleton c

/-- Quote a string as a JSON string literal (models `json.Marshal` on a
Go string). -/
def jsonQuote (s : String) : String :=
  "\"" ++ String.mk (s.data.flatMap (fun c => (escChar c).data)) ++ "\""

/-- Model of the Go `strings.TrimSpace` function: drop whitespace from
both ends (written on the character list so that it evaluates inside the
kernel). -/
def goTrimSpace (s : String) : String :=
  String.mk (((s.data.dropWhile Char.isWhitespace).reverse.dropWhile
    Char.isWhitespace).reverse)

/-- Model of the Go `strings.ToLower` function (character-wise, which is
what the source needs for the literal `function`). -/
def goToLower (s : String) : String := String.mk (s.data.map Char.toLower)

mutual

/-- Serialization of a decoded JSON value back to JSON text; models
`json.Marshal` applied to a decoded `interface\x7b\x7d` value. -/
def Json.render : Json → String
  | .null => "null"
  | .bool b => if b then "true" else "false"
  | .num n => toString n
  | .str s => jsonQuote s
  | .arr l => "[" ++ JsonList.render l ++ "]"
  | .obj fs => "\x7b" ++ JsonFields.render fs ++ "\x7d"

def JsonList.render : JsonList → String
  | .nil => ""
  | .cons j .nil => Json.render j
  | .cons j (.cons k rest) => Json.render j ++ "," ++ JsonList.render (.cons k rest)

def JsonFields.render : JsonFields → String
  | .nil => ""
  | .cons k v .nil => jsonQuote k ++ ":" ++ Json.render v
  | .cons k v (.cons k2 v2 rest) =>
      jsonQuote k ++ ":" ++ Json.render v ++ "," ++ JsonFields.render (.cons k2 v2 rest)

end

/-- Lookup of a key in a decoded JSON object, models `mp["key"]` on a Go
`map[string]interface\x7b\x7d` (first binding wins; decoded objects have
unique keys). -/
def JsonFields.lookupF : JsonFields → String → Option Json
  | .nil, _ => none
  | .cons k v rest, key => if k = key then some v else JsonFields.lookupF rest key

/-- Generic association-list lookup, models reading from a Go map. -/
def alLookup {κ α : Type} [DecidableEq κ] : List (κ × α) → κ → Option α
  | [], _ => none
  | (k, v) :: rest, key => if k = key then some v else alLookup rest key

/-- Generic association-list update, models writing to a Go map. A new
key is appended at the end, so the key list records first-appearance
order. -/
def alUpsert {κ α : Type} [DecidableEq κ] : List (κ × α) → κ → α → List (κ × α)
  | [], key, v => [(key, v)]
  | (k, w) :: rest, key, v =>
      if k = key then (k, v) :: rest else (k, w) :: alUpsert rest key v

/-! ## Forward stream translator (OpenAI chunks to Anthropic events)

Embedding of `ConvertOpenAIStreamToAnthropic` from `cmd/adapter/main.go`. -/

/-- One tool-call delta inside an OpenAI streaming chunk (the anonymous
struct in `OpenAIStreamChunk.Choices[].Delta.ToolCalls` of the source;
missing JSON fields decode to empty strings and zero). -/
structure StreamToolCall where
  id : String
  type : String
  index : Int
  name : String
  arguments : String
  deriving DecidableEq

/-- The `delta` object of an OpenAI streaming chunk choice. -/
structure StreamDelta where
  role : String
  content : String
  tool_calls : List StreamToolCall
  deriving DecidableEq

/-- One choice of an OpenAI streaming chunk. -/
structure StreamChoice where
  index : Int
  delta : StreamDelta
  finish_reason : String
  deriving DecidableEq

/-- An OpenAI streaming chunk (`OpenAIStreamChunk` in the source). -/
structure OpenAIStreamChunk where
  id : String
  object : String
  model : String
  choices : List StreamChoice
  deriving DecidableEq

/-- One input line of the OpenAI SSE stream, pre-classified exactly into
the cases the Go reader loop distinguishes: `blank` covers an empty or
non`data:`-prefixed line (skipped), `badJson` a `data:` line whose
payload fails to unmarshal (skipped), `done` the literal `[DONE]`
terminator payload (stops the loop), and `chunk` a decoded chunk. -/
inductive BLine where
  | blank : BLine
  | badJson : BLine
  | done : BLine
  | chunk : OpenAIStreamChunk → BLine
  deriving DecidableEq

/-- A content block of the emitted Anthropic events: the text block or a
tool-use block with id, name and parsed input. -/
inductive ABlock where
  | text : ABlock
  | tool_use : String → String → Json → ABlock
  deriving DecidableEq

/-- An emitted Anthropic SSE event. `content_block_delta` carries the
text of a `text_delta`; `message_delta` carries the stop reason and the
two usage counters (input tokens, output tokens). -/
inductive AEvent where
  | message_start : AEvent
  | content_block_start : Nat → ABlock → AEvent
  | content_block_delta : Nat → String → AEvent
  | content_block_stop : Nat → AEvent
  | message_delta : String → Nat → Nat → AEvent
  | message_stop : AEvent
  deriving DecidableEq

/-- Per-call accumulator of the forward translator (the local `toolBuf`
struct: latest id and name, original call index, concatenated argument
fragments). -/
structure ToolBuf where
  id : String
  name : String
  idx : Int
  args : String
  deriving DecidableEq

/-- Mutable state of the forward translator loop: whether the text block
was started, the concatenated text, and the per-call-index buffer map. -/
structure FwdState where
  sentTextStart : Bool
  totalText : String
  toolByIdx : List (Int × ToolBuf)
  deriving DecidableEq

/-- Initial forward-translator state. -/
def fwdInit : FwdState := ⟨false, "", []⟩

/-- Events emitted for the text part of one chunk delta: on the first
non-empty content the text block is started at index 0, and every
non-empty content emits a `text_delta` at index 0. -/
def fwdTextEvents (sent : Bool) (content : String) : List AEvent :=
  if content = "" then []
  else (if sent then [] else [.content_block_start 0 .text]) ++
    [.content_block_delta 0 content]

/-- Buffer update for one tool-call delta: keep the latest non-empty id
and name, append non-empty argument fragments (loop body over
`d.ToolCalls` in the source). -/
def fwdStepToolCall (m : List (Int × ToolBuf)) (tc : StreamToolCall) :
    List (Int × ToolBuf) :=
  let b := (alLookup m tc.index).getD ⟨"", "", tc.index, ""⟩
  alUpsert m tc.index
    ⟨if tc.id ≠ "" then tc.id else b.id,
     if tc.name ≠ "" then tc.name else b.name,
     b.idx,
     if tc.arguments ≠ "" then b.args ++ tc.arguments else b.args⟩

/-- Processing of one decoded chunk delta (text handling followed by
tool-call buffering). -/
def fwdStepChunk (s : FwdState) (d : StreamDelta) : FwdState × List AEvent :=
  (⟨if d.content = "" then s.sentTextStart else true,
    s.totalText ++ d.content,
    d.tool_calls.foldl fwdStepToolCall s.toolByIdx⟩,
   fwdTextEvents s.sentTextStart d.content)

/-- The reader loop of the forward translator: skip blank and malformed
lines, stop at the `[DONE]` terminator or end of input, skip chunks with
no choices, and feed the delta of the first choice of every other chunk
to `fwdStepChunk`. -/
def fwdConsume : FwdState → List BLine → FwdState × List AEvent
  | s, [] => (s, [])
  | s, .blank :: ls => fwdConsume s ls
  | s, .badJson :: ls => fwdConsume s ls
  | s, .done :: _ => (s, [])
  | s, .chunk c :: ls =>
    match c.choices with
    | [] => fwdConsume s ls
    | ch :: _ =>
      let p := fwdStepChunk s ch.delta
      let q := fwdConsume p.1 ls
      (q.1, p.2 ++ q.2)

/-- Input object for an aggregated tool call: parse the concatenated
argument buffer when its trimmed form is non-empty, fall back to the
empty JSON object otherwise or on parse failure. -/
def inputOfArgs (parse : String → Option Json) (args : String) : Json :=
  if goTrimSpace args ≠ "" then
    match parse args with
    | some v => v
    | none => .obj .nil
  else .obj .nil

/-- End-of-input phase of the forward translator: close the text block
if it was started, then emit the buffered tool calls in ascending key
order as atomic start/stop pairs at content-block indices 1, 2, ...,
then the final `message_delta` (stop reason end_turn, input tokens 0,
output tokens byte-length of the concatenated text divided by 4) and
`message_stop`. -/
def fwdEndEvents (parse : String → Option Json) (s : FwdState) : List AEvent :=
  (if s.sentTextStart then [.content_block_stop 0] else []) ++
  ((List.insertionSort (· ≤ ·) (s.toolByIdx.map Prod.fst)).enum.flatMap (fun p =>
    let b := (alLookup s.toolByIdx p.2).getD ⟨"", "", p.2, ""⟩
    [.content_block_start (p.1 + 1) (.tool_use b.id b.name (inputOfArgs parse b.args)),
     .content_block_stop (p.1 + 1)])) ++
  [.message_delta "end_turn" 0 (s.totalText.utf8ByteSize / 4), .message_stop]

/-- Embedding of `ConvertOpenAIStreamToAnthropic`: the initial
`message_start`, the events of the reader loop, and the end-of-input
phase. -/
def ConvertOpenAIStreamToAnthropic (parse : String → Option Json)
    (lines : List BLine) : List AEvent :=
  let r := fwdConsume fwdInit lines
  .message_start :: (r.2 ++ fwdEndEvents parse r.1)

/-! ## Specification-side view of the forward stream

The following functions restate, in the words of the specification, what
the forward translator is claimed to compute: the flat sequence of
processed chunk deltas, the concatenated text, and the per-call-index
aggregation (latest non-empty id and name, in-order concatenation of
argument fragments), together with the claimed end-of-stream tool-call
emission (sorted by ascending original call index, atomic start/stop
pairs carrying the fully parsed accumulated arguments). -/

/-- The deltas the reader loop actually processes: blank and malformed
lines and chunks without choices contribute nothing, the `[DONE]`
terminator stops the traversal, every other chunk contributes the delta
of its first choice. -/
def framedDeltas : List BLine → List StreamDelta
  | [] => []
  | .blank :: ls => framedDeltas ls
  | .badJson :: ls => framedDeltas ls
  | .done :: _ => []
  | .chunk c :: ls =>
    match c.choices with
    | [] => framedDeltas ls
    | ch :: _ => ch.delta :: framedDeltas ls

/-- The non-empty text deltas of the processed chunks, in order. -/
def textPieces (lines : List BLine) : List String :=
  ((framedDeltas lines).map StreamDelta.content).filter (fun s => s ≠ "")

/-- The tool-call deltas of the processed chunks, flattened in order. -/
def toolDeltasOf (lines : List BLine) : List StreamToolCall :=
  (framedDeltas lines).flatMap StreamDelta.tool_calls

/-- Latest non-empty id carried by a delta for call index `i` (empty if
none); earlier non-empty values are kept when later deltas carry empty
ones. -/
def lastNonEmptyId (ds : List StreamToolCall) (i : Int) : String :=
  ds.foldl (fun acc d => if d.index = i ∧ d.id ≠ "" then d.id else acc) ""

/-- Latest non-empty name carried by a delta for call index `i`. -/
def lastNonEmptyName (ds : List StreamToolCall) (i : Int) : String :=
  ds.foldl (fun acc d => if d.index = i ∧ d.name ≠ "" then d.name else acc) ""

/-- In-order concatenation of every argument fragment received for call
index `i`. -/
def catArgs (ds : List StreamToolCall) (i : Int) : String :=
  ds.foldl (fun acc d => if d.index = i then acc ++ d.arguments else acc) ""

/-- In-order concatenation of a list of strings. -/
def catTexts : List String → String
  | [] => ""
  | s :: rest => s ++ catTexts rest

/-- Whether any delta referenced call index `i`. -/
def seenIdx (ds : List StreamToolCall) (i : Int) : Bool :=
  ds.any (fun d => d.index == i)

/-- Claimed accumulator content for call index `i` after the deltas
`ds`: present exactly when the index was referenced, holding the latest
non-empty id and name and the concatenated argument fragments. -/
def refBuf (ds : List StreamToolCall) (i : Int) : Option ToolBuf :=
  if seenIdx ds i then
    some ⟨lastNonEmptyId ds i, lastNonEmptyName ds i, i, catArgs ds i⟩
  else none

/-- The distinct original call indices, sorted ascending. -/
def callIdxsSorted (ds : List StreamToolCall) : List Int :=
  List.insertionSort (· ≤ ·) ((ds.map StreamToolCall.index).dedup)

/-- Claimed end-of-stream tool-call emission, parameterized by the
function that turns an accumulated argument buffer into the input
object: one `content_block_start` carrying the aggregated call followed
immediately by `content_block_stop` at the same index, for each distinct
original call index in ascending order, at consecutive content-block
indices starting at the given base. -/
def specToolSegmentWith (inputFn : String → Json) (base : Nat)
    (ds : List StreamToolCall) : List AEvent :=
  (callIdxsSorted ds).enum.flatMap (fun p =>
    [.content_block_start (p.1 + base)
       (.tool_use (lastNonEmptyId ds p.2) (lastNonEmptyName ds p.2)
          (inputFn (catArgs ds p.2))),
     .content_block_stop (p.1 + base)])

/-- Input object in the words of the specification: parse the
concatenated buffer as JSON, and substitute an empty object on parse
failure. -/
def specInput (parse : String → Option Json) (raw : String) : Json :=
  match parse raw with
  | some v => v
  | none => .obj .nil

/-- Helper describing the text events produced by the reader loop given
the initial text-started flag and the non-empty text pieces. -/
def fwdBodyEvents : Bool → List String → List AEvent
  | _, [] => []
  | false, p :: ps =>
      .content_block_start 0 .text :: .content_block_delta 0 p :: fwdBodyEvents true ps
  | true, p :: ps => .content_block_delta 0 p :: fwdBodyEvents true ps

/-! ## Reverse stream translator (Anthropic events to OpenAI chunks)

Embedding of `ConvertAnthropicStreamToOpenAI` from `cmd/adapter/main.go`. -/

/-- Decoded payload of a `content_block_start` event: the block index
and the type, id and name read from the `content_block` object (missing
or non-string fields decode to the empty string). -/
structure CBStart where
  index : Int
  cbType : String
  id : String
  name : String
  deriving DecidableEq

/-- Decoded payload of a `content_block_delta` event: the block index,
the delta type, the `text` field, the partial_json field `pjson`, and
the fallback `delta` field (present only when it is a string). -/
structure CBDelta where
  index : Int
  dtype : String
  text : String
  pjson : String
  dkey : Option String
  deriving DecidableEq

/-- One input event of the Anthropic SSE stream, pre-classified into the
cases the Go loop distinguishes. `skipped` covers a line pair that the
loop ignores (no `event:` prefix, missing or malformed `data:` payload,
or an unknown event name); `content_block_stop` has no handler in the
source switch and is likewise a no-op, but is kept as its own case. -/
inductive AEventLine where
  | message_start : AEventLine
  | content_block_start : CBStart → AEventLine
  | content_block_delta : CBDelta → AEventLine
  | content_block_stop : AEventLine
  | message_delta : AEventLine
  | message_stop : AEventLine
  | skipped : AEventLine
  deriving DecidableEq

/-- One tool-call entry of an emitted OpenAI chunk delta; `Option`
fields model which keys the source puts into the emitted map. -/
structure OutToolCall where
  id : Option String
  type : String
  index : Nat
  name : Option String
  arguments : Option String
  deriving DecidableEq

/-- The delta object of an emitted OpenAI chunk. -/
structure OutDelta where
  role : Option String
  content : Option String
  tool_calls : List OutToolCall
  deriving DecidableEq

/-- An emitted OpenAI streaming chunk (single choice at index 0, with an
optional finish reason), as built by the local `send` closure. -/
structure BChunkOut where
  delta : OutDelta
  finish_reason : Option String
  deriving DecidableEq

/-- Chunk announcing the assistant role. -/
def mkRoleChunk : BChunkOut := ⟨⟨some "assistant", none, []⟩, none⟩

/-- Chunk carrying one text fragment. -/
def mkContentChunk (s : String) : BChunkOut := ⟨⟨none, some s, []⟩, none⟩

/-- Chunk announcing a tool call: id, type, assigned index and name, no
arguments yet. -/
def mkToolStartChunk (id : String) (idx : Nat) (name : String) : BChunkOut :=
  ⟨⟨none, none, [⟨some id, "function", idx, some name, none⟩]⟩, none⟩

/-- Chunk carrying one raw argument fragment for the assigned index. -/
def mkArgsChunk (idx : Nat) (piece : String) : BChunkOut :=
  ⟨⟨none, none, [⟨none, "function", idx, none, some piece⟩]⟩, none⟩

/-- Final chunk with the terminal finish reason. -/
def mkStopChunk : BChunkOut := ⟨⟨none, none, []⟩, some "stop"⟩

/-- Mutable state of the reverse translator: whether the role chunk was
sent, the next target call index, the block-index-to-target-index map,
and the per-target-index argument buffer. -/
structure RevState where
  roleSent : Bool
  nextToolIdx : Nat
  cmap : List (Int × Nat)
  argsBuf : List (Nat × String)
  deriving DecidableEq

/-- Initial reverse-translator state. -/
def revInit : RevState := ⟨false, 0, [], []⟩

/-- Argument fragment carried by a `content_block_delta` payload: the
partial_json field when non-empty, else the string `delta` field when
present. -/
def pieceOf (o : CBDelta) : String :=
  if o.pjson ≠ "" then o.pjson else o.dkey.getD ""

/-- One step of the reverse translator switch. -/
def revStep (s : RevState) (e : AEventLine) : RevState × List BChunkOut :=
  match e with
  | .message_start =>
      if s.roleSent then (s, [])
      else (⟨true, s.nextToolIdx, s.cmap, s.argsBuf⟩, [mkRoleChunk])
  | .content_block_start o =>
      if o.cbType = "tool_use" then
        (⟨s.roleSent, s.nextToolIdx + 1, alUpsert s.cmap o.index s.nextToolIdx, s.argsBuf⟩,
         [mkToolStartChunk o.id s.nextToolIdx o.name])
      else (s, [])
  | .content_block_delta o =>
      if o.dtype = "text_delta" then
        (s, if o.text ≠ "" then [mkContentChunk o.text] else [])
      else if o.dtype = "input_json_delta" then
        match alLookup s.cmap o.index with
        | none => (s, [])
        | some t =>
          (⟨s.roleSent, s.nextToolIdx, s.cmap,
            alUpsert s.argsBuf t ((alLookup s.argsBuf t).getD "" ++ pieceOf o)⟩,
           [mkArgsChunk t (pieceOf o)])
      else (s, [])
  | .message_stop => (s, [mkStopChunk])
  | _ => (s, [])

/-- The reverse-translator loop over a list of classified events,
collecting the emitted chunks. -/
def revRun (s : RevState) : List AEventLine → RevState × List BChunkOut
  | [] => (s, [])
  | e :: es =>
    let p := revStep s e
    let q := revRun p.1 es
    (q.1, p.2 ++ q.2)

/-- Embedding of `ConvertAnthropicStreamToOpenAI`: the chunks emitted
for a full event stream. -/
def ConvertAnthropicStreamToOpenAI (events : List AEventLine) : List BChunkOut :=
  (revRun revInit events).2

/-- Whether an event is a tool-use `content_block_start` (the events the
target call index counter advances on). -/
def isToolStartEv : AEventLine → Bool
  | .content_block_start o => o.cbType == "tool_use"
  | _ => false

/-- Number of tool-use `content_block_start` events in a list. -/
def countToolStarts (es : List AEventLine) : Nat :=
  (es.filter isToolStartEv).length

/-- Whether the list contains a tool-use `content_block_start` for the
given block index. -/
def hasToolStartAt (i : Int) (es : List AEventLine) : Bool :=
  es.any (fun e =>
    match e with
    | .content_block_start o => o.cbType == "tool_use" && o.index == i
    | _ => false)

/-! ## Anthropic-side content model and request mapping (A to B)

Embedding of `parseAnthropicContent`, `systemToOpenAI`,
`ConvertMessagesToOpenAI`, `mapToolsToOpenAI` and `AnthropicToOpenAI`. -/

/-- A typed content block of an Anthropic message (`AnthropicContent` in
the source). `input` models the raw-JSON pointer of a tool-use block
(absent when the pointer or its target is nil); `content` models the
dynamically typed payload of a tool-result block. -/
structure AnthropicContent where
  type : String
  text : String
  id : String
  name : String
  input : Option String
  tool_use_id : String
  content : Option Json
  deriving DecidableEq

/-- Text block shorthand. -/
def textBlock (s : String) : AnthropicContent := ⟨"text", s, "", "", none, "", none⟩

/-- Tool-use block shorthand. -/
def toolUseBlock (id name : String) (input : Option String) : AnthropicContent :=
  ⟨"tool_use", "", id, name, input, "", none⟩

/-- Tool-result block shorthand. -/
def toolResultBlock (callId : String) (payload : Option Json) : AnthropicContent :=
  ⟨"tool_result", "", "", "", none, callId, payload⟩

/-- The raw `content` field of an Anthropic message, pre-classified into
the shapes `parseAnthropicContent` distinguishes: absent or JSON null, a
JSON string, a decodable array of typed blocks, or anything else (the
unsupported shape, remembered with its text for the error message). -/
inductive RawContent where
  | nullRaw : RawContent
  | strRaw : String → RawContent
  | blocksRaw : List AnthropicContent → RawContent
  | invalidRaw : String → RawContent
  deriving DecidableEq

/-- An Anthropic message of the request history. -/
structure AnthropicMsg where
  role : String
  content : RawContent
  deriving DecidableEq

/-- An Anthropic tool definition (the schema is an uninterpreted JSON object). -/
structure AnthropicTool where
  name : String
  description : String
  input_schema : Json
  deriving DecidableEq

/-- An Anthropic Messages request (subset modelled by the source). -/
structure AnthropicMessageRequest where
  model : String
  system : RawContent
  messages : List AnthropicMsg
  tools : List AnthropicTool
  max_tokens : Int
  temperature : Option Float
  stop_sequences : List String
  stream : Bool

/-- The function object of an OpenAI tool call. -/
structure OpenAIToolCallFunction where
  name : String
  arguments : String
  deriving DecidableEq

/-- An OpenAI tool call. -/
structure OpenAIToolCall where
  id : String
  type : String
  function : OpenAIToolCallFunction
  deriving DecidableEq

/-- An OpenAI chat message; `content` models the dynamically typed Go
field (`none` = nil). -/
structure OpenAIMessage where
  role : String
  content : Option Json
  name : String
  tool_call_id : String
  tool_calls : List OpenAIToolCall
  deriving DecidableEq

/-- An OpenAI function declaration. -/
structure OpenAIFunction where
  name : String
  description : String
  parameters : Json
  deriving DecidableEq

/-- An OpenAI tool declaration. -/
structure OpenAITool where
  type : String
  function : OpenAIFunction
  deriving DecidableEq

/-- An OpenAI chat request (subset modelled by the source). -/
structure OpenAIChatRequest where
  model : String
  messages : List OpenAIMessage
  tools : List OpenAITool
  temperature : Option Float
  max_tokens : Int
  stop : List String
  stream : Bool

/-- Embedding of `parseAnthropicContent`: nil or null content is an
empty block list, a string is a single text block (flagged as coming
from a string), a block array is taken as is, anything else is a hard
error. -/
def parseAnthropicContent : RawContent → Except String (List AnthropicContent × Bool)
  | .nullRaw => .ok ([], false)
  | .strRaw s => .ok ([textBlock s], true)
  | .blocksRaw bs => .ok (bs, false)
  | .invalidRaw s => .error ("unsupported content: " ++ s)

/-- Blank-line join used throughout the source. -/
def joinNN (parts : List String) : String := String.intercalate "\n\n" parts

/-- User message shorthand. -/
def userMsg (s : String) : OpenAIMessage := ⟨"user", some (.str s), "", "", []⟩

/-- Embedding of `systemToOpenAI`: a non-blank string becomes the system
message directly; otherwise the content is parsed as blocks and the
non-blank text blocks are joined; an empty result yields no message. -/
def systemToOpenAI : RawContent → Option OpenAIMessage
  | .nullRaw => none
  | .strRaw s =>
      if goTrimSpace s ≠ "" then some ⟨"system", some (.str s), "", "", []⟩ else none
  | .blocksRaw bs =>
      let buf := (bs.filter (fun p => p.type = "text" ∧ goTrimSpace p.text ≠ "")).map
        AnthropicContent.text
      if buf = [] then none else some ⟨"system", some (.str (joinNN buf)), "", "", []⟩
  | .invalidRaw _ => none

/-- The string content a Go type switch extracts from a dynamically
typed value: a string directly, nil as the empty string, anything else
marshalled back to JSON text (used for tool-result payloads). -/
def goContentStr : Option Json → String
  | some (.str s) => s
  | none => ""
  | some j => Json.render j

/-- Flush of the pending user text buffer: nothing when empty, otherwise
one user message with the blank-line join. -/
def flushUser (pending : List String) : List OpenAIMessage :=
  if pending = [] then [] else [userMsg (joinNN pending)]

/-- The user-role loop of `ConvertMessagesToOpenAI`: non-blank text
blocks are buffered, each tool-result block flushes the buffer and
becomes its own tool message, all other block types are ignored, and the
buffer is flushed at the end. -/
def convertUserParts : List AnthropicContent → List String → List OpenAIMessage
  | [], pending => flushUser pending
  | p :: ps, pending =>
    if p.type = "text" then
      convertUserParts ps (if goTrimSpace p.text ≠ "" then pending ++ [p.text] else pending)
    else if p.type = "tool_result" then
      flushUser pending ++
        (⟨"tool", some (.str (goContentStr p.content)), "", p.tool_use_id, []⟩ ::
          convertUserParts ps [])
    else convertUserParts ps pending

/-- The assistant-role branch of `ConvertMessagesToOpenAI`: non-empty
text blocks join into the content, tool-use blocks become the call list
(arguments default to the empty JSON object text when the input is
absent), and the assistant message is appended unconditionally. -/
def assistantMsgOf (parts : List AnthropicContent) : OpenAIMessage :=
  let textBuf := (parts.filter (fun p => p.type = "text" ∧ p.text ≠ "")).map
    AnthropicContent.text
  let toolCalls := (parts.filter (fun p => p.type = "tool_use")).map (fun p =>
    OpenAIToolCall.mk p.id "function" ⟨p.name, p.input.getD "\x7b\x7d"⟩)
  ⟨"assistant",
   if textBuf = [] then none else some (.str (joinNN textBuf)),
   "", "", toolCalls⟩

/-- Messages produced for one Anthropic message of the history; roles
other than user and assistant are ignored. -/
def msgsForAnthropicMsg (role : String) (parts : List AnthropicContent) :
    List OpenAIMessage :=
  if role = "user" then convertUserParts parts []
  else if role = "assistant" then [assistantMsgOf parts]
  else []

/-- The message loop of `ConvertMessagesToOpenAI`; the first content
parse failure aborts the whole conversion. -/
def convertMsgList : List AnthropicMsg → Except String (List OpenAIMessage)
  | [] => .ok []
  | m :: ms => do
    let pr ← parseAnthropicContent m.content
    let rest ← convertMsgList ms
    .ok (msgsForAnthropicMsg m.role pr.1 ++ rest)

/-- Embedding of `ConvertMessagesToOpenAI`: the optional system message
followed by the converted history. -/
def ConvertMessagesToOpenAI (req : AnthropicMessageRequest) :
    Except String (List OpenAIMessage) := do
  let body ← convertMsgList req.messages
  .ok ((systemToOpenAI req.system).toList ++ body)

/-- Embedding of `mapToolsToOpenAI`. -/
def mapToolsToOpenAI (tools : List AnthropicTool) : List OpenAITool :=
  tools.map (fun t => ⟨"function", ⟨t.name, t.description, t.input_schema⟩⟩)

/-- Embedding of `AnthropicToOpenAI`: the full request conversion. -/
def AnthropicToOpenAI (areq : AnthropicMessageRequest) :
    Except String OpenAIChatRequest := do
  let msgs ← ConvertMessagesToOpenAI areq
  .ok ⟨areq.model, msgs, mapToolsToOpenAI areq.tools, areq.temperature,
       areq.max_tokens, areq.stop_sequences, areq.stream⟩

/-! ## Reverse request mapping (B to A)

Embedding of `mapToolsToAnthropic` and `OpenAIToAnthropicRequest`. -/

/-- Texts collected from a decoded JSON array the way every reverse
mapping site does: items that are objects whose `type` field is the
string `text` and whose `text` field is a non-blank string. -/
def collectTexts : JsonList → List String
  | .nil => []
  | .cons it rest =>
    (match it with
     | .obj fs =>
       match fs.lookupF "type", fs.lookupF "text" with
       | some (.str t), some (.str ts) =>
         if t = "text" ∧ goTrimSpace ts ≠ "" then [ts] else []
       | _, _ => []
     | _ => []) ++ collectTexts rest

/-- System string extracted from one system message: a string content
directly, an array content as the blank-line join of its text parts (or
empty when there are none), anything else as empty. -/
def sysExtract : Option Json → String
  | some (.str s) => s
  | some (.arr l) => let buf := collectTexts l; if buf = [] then "" else joinNN buf
  | _ => ""

/-- One step of the `OpenAIToAnthropicRequest` message loop over the
accumulated pair (system string, converted messages). -/
def b2aStep (st : String × List AnthropicMsg) (m : OpenAIMessage) :
    String × List AnthropicMsg :=
  if m.role = "system" then
    (if st.1 = "" then sysExtract m.content else st.1, st.2)
  else if m.role = "user" then
    (st.1, st.2 ++
      (match m.content with
       | some (.str s) => [⟨"user", .blocksRaw [textBlock s]⟩]
       | some (.arr l) =>
         let parts := (collectTexts l).map textBlock
         if parts = [] then [] else [⟨"user", .blocksRaw parts⟩]
       | _ => []))
  else if m.role = "assistant" then
    let tparts : List AnthropicContent :=
      match m.content with
      | some (.str s) => if goTrimSpace s ≠ "" then [textBlock s] else []
      | some (.arr l) => (collectTexts l).map textBlock
      | _ => []
    let parts := tparts ++ m.tool_calls.map (fun tc =>
      toolUseBlock tc.id tc.function.name
        (if tc.function.arguments = "" then none else some tc.function.arguments))
    (st.1, st.2 ++ (if parts = [] then [] else [⟨"assistant", .blocksRaw parts⟩]))
  else if m.role = "tool" then
    (st.1, st.2 ++
      [⟨"user", .blocksRaw [toolResultBlock m.tool_call_id
        (some (.str (goContentStr m.content)))]⟩])
  else st

/-- Embedding of `mapToolsToAnthropic`: non-function tools are skipped. -/
def mapToolsToAnthropic (tools : List OpenAITool) : List AnthropicTool :=
  (tools.filter (fun t => goToLower t.type = "function")).map (fun t =>
    ⟨t.function.name, t.function.description, t.function.parameters⟩)

/-- The value computed by `OpenAIToAnthropicRequest` (which has a single
return site with a nil error). -/
def openAIToAnthropicRequestCore (oreq : OpenAIChatRequest) : AnthropicMessageRequest :=
  let st := oreq.messages.foldl b2aStep ("", [])
  ⟨oreq.model,
   if st.1 = "" then .nullRaw else .strRaw st.1,
   st.2, mapToolsToAnthropic oreq.tools, oreq.max_tokens, oreq.temperature,
   oreq.stop, oreq.stream⟩

/-- Embedding of `OpenAIToAnthropicRequest`; the Go function returns the
built request together with an always-nil error. -/
def OpenAIToAnthropicRequest (oreq : OpenAIChatRequest) :
    Except String AnthropicMessageRequest :=
  .ok (openAIToAnthropicRequestCore oreq)

/-- Specification-side view of the resulting system string: the first
non-empty extraction among the system-role messages, in order. -/
def specSystemOf (msgs : List OpenAIMessage) : String :=
  ((((msgs.filter (fun m => m.role = "system")).map
      (fun m => sysExtract m.content)).filter (fun s => s ≠ "")).headD "")

/-! ## Non-streaming response mapping (B to A)

Embedding of `mapOpenAIToAnthropic` and its exported wrapper
`OpenAIToAnthropic`. The response id the source derives from the wall
clock is passed in as the parameter `msgId`. -/

/-- One choice of a non-streaming OpenAI chat response. -/
structure OChoice where
  index : Int
  finish_reason : String
  message : OpenAIMessage
  deriving DecidableEq

/-- Usage counters of a non-streaming OpenAI chat response. -/
structure OUsage where
  prompt_tokens : Int
  completion_tokens : Int
  total_tokens : Int
  deriving DecidableEq

/-- A non-streaming OpenAI chat response. -/
structure OpenAIChatResponse where
  id : String
  object : String
  model : String
  choices : List OChoice
  usage : Option OUsage
  deriving DecidableEq

/-- A content block of the mapped Anthropic response (the source builds
untyped maps with exactly these keys). -/
inductive ABlockOut where
  | text : String → ABlockOut
  | tool_use : String → String → Json → ABlockOut
  deriving DecidableEq

/-- Anthropic usage counters. -/
structure AnthropicUsage where
  input_tokens : Int
  output_tokens : Int
  deriving DecidableEq

/-- A non-streaming Anthropic message response. -/
structure AnthropicMessageResponse where
  id : String
  type : String
  role : String
  model : String
  content : List ABlockOut
  stop_reason : Option String
  stop_sequence : Option String
  usage : Option AnthropicUsage
  deriving DecidableEq

/-- Embedding of `mapOpenAIToAnthropic`: fail on an empty choice list,
otherwise reduce to the first choice; string content becomes one text
block when non-empty, array content becomes the join of its text parts;
each tool call becomes a tool-use block whose input is the parsed
arguments, or an object with the raw string under the key underscore on
parse failure; the stop reason is the finish reason, forced to
`tool_use` when any tool call is present, and absent when the finish
reason is empty. -/
def mapOpenAIToAnthropic (parse : String → Option Json) (msgId : String)
    (oresp : OpenAIChatResponse) (requestedModel : String) :
    Except String AnthropicMessageResponse :=
  match oresp.choices with
  | [] => .error "no choices"
  | choice :: _ =>
    let textPart : List ABlockOut :=
      match choice.message.content with
      | some (.str s) => if s ≠ "" then [.text s] else []
      | some (.arr l) =>
        let buf := collectTexts l
        if buf = [] then [] else [.text (joinNN buf)]
      | _ => []
    let toolParts := choice.message.tool_calls.map (fun tc =>
      ABlockOut.tool_use tc.id tc.function.name
        (match parse tc.function.arguments with
         | some v => v
         | none => .obj (.cons "_" (.str tc.function.arguments) .nil)))
    let stop : Option String :=
      if choice.finish_reason = "" then none
      else some (if choice.message.tool_calls = [] then choice.finish_reason
                 else "tool_use")
    .ok ⟨msgId, "message", "assistant", requestedModel, textPart ++ toolParts,
         stop, none, oresp.usage.map (fun u => ⟨u.prompt_tokens, u.completion_tokens⟩)⟩

/-- Embedding of the exported wrapper `OpenAIToAnthropic`, which simply
calls `mapOpenAIToAnthropic`. -/
def OpenAIToAnthropic (parse : String → Option Json) (msgId : String)
    (oresp : OpenAIChatResponse) (requestedModel : String) :
    Except String AnthropicMessageResponse :=
  mapOpenAIToAnthropic parse msgId oresp requestedModel

/-! ## Miscellaneous specification-side helpers and concrete fixtures -/

/-- Texts a user-role block list contributes to the pending buffer: the
text blocks whose trimmed text is non-blank. -/
def keptTexts (parts : List AnthropicContent) : List String :=
  ((parts.filter (fun p => p.type = "text" ∧ goTrimSpace p.text ≠ "")).map
    AnthropicContent.text)

/-- Tool message built from one tool-result block (the message the
source appends for a tool result, with non-string payloads serialized
to JSON text). -/
def toolMsgOf (p : AnthropicContent) : OpenAIMessage :=
  ⟨"tool", some (.str (goContentStr p.content)), "", p.tool_use_id, []⟩

/-- Whether an emitted forward event belongs to the text phase: the
initial `message_start`, text events at block index 0, or the closing
stop of block 0. -/
def isTextPhase : AEvent → Bool
  | .message_start => true
  | .content_block_start 0 .text => true
  | .content_block_delta 0 _ => true
  | .content_block_stop 0 => true
  | _ => false

/-- Whether an emitted forward event is the final usage-carrying
`message_delta`. -/
def isMsgDelta : AEvent → Bool
  | .message_delta _ _ _ => true
  | _ => false

/-- Whether an emitted forward event is `message_stop`. -/
def isMsgStop : AEvent → Bool
  | .message_stop => true
  | _ => false

/-- Concrete JSON parse function used by the closed fixtures: whitespace
only strings never parse, a handful of literals parse to their values,
everything else fails. -/
def parseDemo (s : String) : Option Json :=
  if goTrimSpace s = "" then none
  else if s = "\x7b\x7d" then some (.obj .nil)
  else if s = "\x7b\"a\":1\x7d" then some (.obj (.cons "a" (.num 1) .nil))
  else none

/-! ## Association-list lemmas -/

theorem alLookup_upsert_self {κ α : Type} [DecidableEq κ]
    (m : List (κ × α)) (k : κ) (v : α) : alLookup (alUpsert m k v) k = some v := by
  induction m with
  | nil => simp [alUpsert, alLookup]
  | cons hd tl ih =>
    obtain ⟨k1, w⟩ := hd
    by_cases h : k1 = k <;> simp [alUpsert, alLookup, h, ih]

theorem alLookup_upsert_ne {κ α : Type} [DecidableEq κ]
    (m : List (κ × α)) (k j : κ) (v : α) (h : j ≠ k) :
    alLookup (alUpsert m k v) j = alLookup m j := by
  induction m with
  | nil => simp [alUpsert, alLookup, Ne.symm h]
  | cons hd tl ih =>
    obtain ⟨k1, w⟩ := hd
    by_cases h1 : k1 = k
    · subst h1
      simp [alUpsert, alLookup, Ne.symm h]
    · by_cases h2 : k1 = j
      · subst h2
        simp [alUpsert, alLookup, h1]
      · simp [alUpsert, alLookup, h1, h2, ih]

theorem alUpsert_keys {κ α : Type} [DecidableEq κ]
    (m : List (κ × α)) (k : κ) (v : α) :
    (alUpsert m k v).map Prod.fst =
      if k ∈ m.map Prod.fst then m.map Prod.fst else m.map Prod.fst ++ [k] := by
  induction m with
  | nil => simp [alUpsert]
  | cons hd tl ih =>
    obtain ⟨k1, w⟩ := hd
    by_cases h : k1 = k
    · subst h
      simp [alUpsert]
    · simp only [alUpsert, if_neg h, List.map_cons, List.mem_cons]
      rw [ih]
      by_cases hk : k ∈ tl.map Prod.fst
      · simp [hk, Ne.symm h]
      · simp [hk, Ne.symm h]

/-! ## Claim C10: empty choice list fails, only the first choice is read -/

/-- C10: the non-streaming response mapper returns an error when the
choice list is empty, and its result on a non-empty choice list is
unchanged when every choice after the first is discarded, so no choice
other than the first is ever inspected. -/
theorem c10_first_choice_only :
    (∀ (parse : String → Option Json) (msgId rm i o md : String)
        (u : Option OUsage),
        mapOpenAIToAnthropic parse msgId ⟨i, o, md, [], u⟩ rm = .error "no choices") ∧
    (∀ (parse : String → Option Json) (msgId rm i o md : String)
        (u : Option OUsage) (c : OChoice) (rest : List OChoice),
        mapOpenAIToAnthropic parse msgId ⟨i, o, md, c :: rest, u⟩ rm =
          mapOpenAIToAnthropic parse msgId ⟨i, o, md, [c], u⟩ rm) := by
  exact ⟨fun _ _ _ _ _ _ _ => rfl, fun _ _ _ _ _ _ _ _ _ => rfl⟩

/-! ## Claim C6: stop reason forcing on tool calls -/

/-- C6 counterexample: a response whose only choice carries a tool call
but reports an empty finish reason maps to a null stop reason, not to
the tool-use sentinel, so the forcing does not hold for every possible
finish-reason value. -/
theorem c6_counterexample :
    mapOpenAIToAnthropic parseDemo "msg_1"
        ⟨"r1", "chat.completion", "gpt",
         [⟨0, "", ⟨"assistant", none, "", "", [⟨"t1", "function", ⟨"do", "\x7b\x7d"⟩⟩]⟩⟩],
         none⟩ "claude-x"
      = .ok ⟨"msg_1", "message", "assistant", "claude-x",
             [.tool_use "t1" "do" (.obj .nil)], none, none, none⟩ ∧
    (none : Option String) ≠ some "tool_use" := by
  exact ⟨rfl, by simp⟩

/-- C6 amended: for a response with at least one choice, the stop reason
is absent when the reported finish reason is empty; otherwise it is the
finish reason mapped name-for-name, forced to the tool-use sentinel when
the first choice carries any tool call. -/
theorem c6_amended (parse : String → Option Json) (msgId rm : String)
    (oresp : OpenAIChatResponse) (c : OChoice) (rest : List OChoice)
    (hc : oresp.choices = c :: rest) :
    ∃ r, mapOpenAIToAnthropic parse msgId oresp rm = .ok r ∧
      r.stop_reason =
        (if c.finish_reason = "" then none
         else if c.message.tool_calls = [] then some c.finish_reason
         else some "tool_use") := by
  obtain ⟨i, o, md, cs, u⟩ := oresp
  simp only at hc
  subst hc
  refine ⟨_, rfl, ?_⟩
  simp only [mapOpenAIToAnthropic]
  by_cases h1 : c.finish_reason = "" <;> by_cases h2 : c.message.tool_calls = [] <;>
    simp [h1, h2]

/-- C6 amended witness: instantiation at a concrete response with one
tool call and finish reason `length`. -/
theorem c6_amended_witness :
    ∃ r, mapOpenAIToAnthropic parseDemo "msg_1"
        ⟨"r1", "chat.completion", "gpt",
         [⟨0, "length", ⟨"assistant", none, "", "",
            [⟨"t1", "function", ⟨"do", "\x7b\x7d"⟩⟩]⟩⟩], none⟩ "claude-x"
      = .ok r ∧
      r.stop_reason =
        (if (OChoice.mk 0 "length"
              ⟨"assistant", none, "", "", [⟨"t1", "function", ⟨"do", "\x7b\x7d"⟩⟩]⟩).finish_reason = ""
         then none
         else if (OChoice.mk 0 "length"
              ⟨"assistant", none, "", "", [⟨"t1", "function", ⟨"do", "\x7b\x7d"⟩⟩]⟩).message.tool_calls = []
           then some (OChoice.mk 0 "length"
              ⟨"assistant", none, "", "", [⟨"t1", "function", ⟨"do", "\x7b\x7d"⟩⟩]⟩).finish_reason
           else some "tool_use") :=
  c6_amended parseDemo "msg_1" "claude-x"
    ⟨"r1", "chat.completion", "gpt",
     [⟨0, "length", ⟨"assistant", none, "", "", [⟨"t1", "function", ⟨"do", "\x7b\x7d"⟩⟩]⟩⟩], none⟩
    ⟨0, "length", ⟨"assistant", none, "", "", [⟨"t1", "function", ⟨"do", "\x7b\x7d"⟩⟩]⟩⟩ [] rfl

/-! ## Claim C5: unsupported content shapes -/

theorem convertMsgList_error (ms : List AnthropicMsg)
    (h : ∃ m ∈ ms, ∃ s, m.content = .invalidRaw s) :
    ∃ e, convertMsgList ms = .error e := by
  induction ms with
  | nil => simp at h
  | cons m tl ih =>
    obtain ⟨m0, hm0, s, hs⟩ := h
    rcases List.mem_cons.mp hm0 with h1 | h1
    · subst h1
      exact ⟨"unsupported content: " ++ s, by simp [convertMsgList, hs, parseAnthropicContent, Bind.bind, Except.bind]⟩
    · cases hp : parseAnthropicContent m.content with
      | error e => exact ⟨e, by simp [convertMsgList, hp, Bind.bind, Except.bind]⟩
      | ok pr =>
        obtain ⟨e, he⟩ := ih ⟨m0, h1, s, hs⟩
        exact ⟨e, by simp [convertMsgList, hp, he, Bind.bind, Except.bind]⟩

/-- C5 counterexample: a reverse-direction request whose user message
has an unsupported content shape (a bare number) maps successfully with
the message silently dropped, instead of failing with an error. -/
theorem c5_counterexample :
    OpenAIToAnthropicRequest
        ⟨"gpt-x", [⟨"user", some (.num 5), "", "", []⟩], [], none, 0, [], false⟩
      = .ok ⟨"gpt-x", .nullRaw, [], [], 0, none, [], false⟩ := rfl

/-- C5 amended: in the A-to-B direction an unsupported content shape
fails the whole mapping call, while the B-to-A mapper never returns an
error (unsupported content is silently dropped there). -/
theorem c5_amended :
    (∀ req : AnthropicMessageRequest,
        (∃ m ∈ req.messages, ∃ s, m.content = .invalidRaw s) →
        ∃ e, ConvertMessagesToOpenAI req = .error e) ∧
    (∀ areq : AnthropicMessageRequest,
        (∃ m ∈ areq.messages, ∃ s, m.content = .invalidRaw s) →
        ∃ e, AnthropicToOpenAI areq = .error e) ∧
    (∀ oreq : OpenAIChatRequest, ∃ r, OpenAIToAnthropicRequest oreq = .ok r) := by
  refine ⟨?_, ?_, fun oreq => ⟨openAIToAnthropicRequestCore oreq, rfl⟩⟩
  · intro req h
    obtain ⟨e, he⟩ := convertMsgList_error req.messages h
    exact ⟨e, by simp [ConvertMessagesToOpenAI, he, Bind.bind, Except.bind]⟩
  · intro areq h
    obtain ⟨e, he⟩ := convertMsgList_error areq.messages h
    exact ⟨e, by simp [AnthropicToOpenAI, ConvertMessagesToOpenAI, he, Bind.bind, Except.bind]⟩

/-- C5 amended witness: concrete instantiations of all three parts. -/
theorem c5_amended_witness :
    (∃ e, ConvertMessagesToOpenAI
        ⟨"m", .nullRaw, [⟨"user", .invalidRaw "42"⟩], [], 0, none, [], false⟩
          = .error e) ∧
    (∃ e, AnthropicToOpenAI
        ⟨"m", .nullRaw, [⟨"user", .invalidRaw "42"⟩], [], 0, none, [], false⟩
          = .error e) ∧
    (∃ r, OpenAIToAnthropicRequest ⟨"gpt-x", [], [], none, 0, [], false⟩ = .ok r) :=
  ⟨c5_amended.1 _ ⟨⟨"user", .invalidRaw "42"⟩, by simp, "42", rfl⟩,
   c5_amended.2.1 _ ⟨⟨"user", .invalidRaw "42"⟩, by simp, "42", rfl⟩,
   c5_amended.2.2 _⟩

/-! ## Claim C8: first non-empty system message wins -/

theorem b2aStep_fst (st : String × List AnthropicMsg) (m : OpenAIMessage) :
    (b2aStep st m).1 =
      if m.role = "system" then (if st.1 = "" then sysExtract m.content else st.1)
      else st.1 := by
  unfold b2aStep
  split_ifs <;> rfl

theorem specSystemOf_cons (m : OpenAIMessage) (ms : List OpenAIMessage) :
    specSystemOf (m :: ms) =
      if m.role = "system" then
        (if sysExtract m.content = "" then specSystemOf ms else sysExtract m.content)
      else specSystemOf ms := by
  by_cases h : m.role = "system"
  · by_cases h2 : sysExtract m.content = "" <;>
      simp [specSystemOf, h, h2, List.filter_cons]
  · simp [specSystemOf, h, List.filter_cons]

theorem b2a_fold_fst (msgs : List OpenAIMessage) :
    ∀ a l, (msgs.foldl b2aStep (a, l)).1 = if a = "" then specSystemOf msgs else a := by
  induction msgs with
  | nil =>
    intro a l
    by_cases h : a = "" <;> simp [specSystemOf, h]
  | cons m ms ih =>
    intro a l
    rw [List.foldl_cons]
    have hp := ih (b2aStep (a, l) m).1 (b2aStep (a, l) m).2
    rw [Prod.mk.eta] at hp
    rw [hp, b2aStep_fst, specSystemOf_cons]
    by_cases hr : m.role = "system"
    · by_cases ha : a = ""
      · by_cases he : sysExtract m.content = "" <;> simp [hr, ha, he]
      · simp [hr, ha]
    · simp [hr]

/-- C8: the system string of the mapped request is exactly the first
non-empty extraction among the system-role messages in order (string
content taken as is, array content flattened by joining its non-blank
text parts with a blank line); every later system message is dropped.
The closed second part shows an array-shaped first system message
winning over a later one. -/
theorem c8_first_system_wins :
    (∀ oreq : OpenAIChatRequest,
        (openAIToAnthropicRequestCore oreq).system =
          (if specSystemOf oreq.messages = "" then RawContent.nullRaw
           else .strRaw (specSystemOf oreq.messages))) ∧
    ((openAIToAnthropicRequestCore
        ⟨"gpt",
         [⟨"system", some (.arr (.cons (.obj (.cons "type" (.str "text")
              (.cons "text" (.str "A") .nil)))
            (.cons (.obj (.cons "type" (.str "text")
              (.cons "text" (.str "B") .nil))) .nil))), "", "", []⟩,
          ⟨"system", some (.str "IGNORED"), "", "", []⟩],
         [], none, 0, [], false⟩).system = .strRaw "A\n\nB") := by
  constructor
  · intro oreq
    have h := b2a_fold_fst oreq.messages "" []
    simp only [reduceIte] at h
    simp only [openAIToAnthropicRequestCore, h]
  · rfl

/-! ## Claim C3: user text flushing around tool results -/

theorem keptTexts_cons (q : AnthropicContent) (A : List AnthropicContent)
    (hq : q.type = "text") :
    keptTexts (q :: A) =
      if goTrimSpace q.text = "" then keptTexts A else q.text :: keptTexts A := by
  by_cases ht : goTrimSpace q.text = "" <;>
    simp [keptTexts, List.filter_cons, hq, ht]

theorem convertUserParts_texts (A : List AnthropicContent) :
    ∀ pending rest, (∀ p ∈ A, p.type = "text") →
      convertUserParts (A ++ rest) pending =
        convertUserParts rest (pending ++ keptTexts A) := by
  induction A with
  | nil =>
    intro pending rest _
    simp [keptTexts]
  | cons q A ih =>
    intro pending rest h
    have hq : q.type = "text" := h q (by simp)
    have hA : ∀ p ∈ A, p.type = "text" := fun p hp => h p (by simp [hp])
    rw [List.cons_append]
    show convertUserParts (q :: (A ++ rest)) pending = _
    rw [convertUserParts, if_pos hq, ih _ _ hA, keptTexts_cons q A hq]
    by_cases ht : goTrimSpace q.text = ""
    · simp [ht]
    · simp [ht]

/-- C3: the interleaved example (text A, tool result, text B) maps to
exactly user(A), tool(call_1, RESULT), user(B); in general all pending
non-blank user text is flushed as one user message immediately before
each tool-result block and at the end of the block list, and each
tool-result block becomes its own tool-role message; the closed last
part shows a non-string tool-result payload serialized to JSON text. -/
theorem c3_user_flush :
    (ConvertMessagesToOpenAI
        ⟨"m", .nullRaw,
         [⟨"user", .blocksRaw [textBlock "A",
             toolResultBlock "call_1" (some (.str "RESULT")), textBlock "B"]⟩],
         [], 0, none, [], false⟩
      = .ok [userMsg "A", ⟨"tool", some (.str "RESULT"), "", "call_1", []⟩,
             userMsg "B"]) ∧
    (∀ (A B : List AnthropicContent) (pending : List String) (p : AnthropicContent),
        (∀ q ∈ A, q.type = "text") → p.type = "tool_result" →
        convertUserParts (A ++ p :: B) pending =
          flushUser (pending ++ keptTexts A) ++
            (toolMsgOf p :: convertUserParts B [])) ∧
    (∀ (A : List AnthropicContent) (pending : List String),
        (∀ q ∈ A, q.type = "text") →
        convertUserParts A pending = flushUser (pending ++ keptTexts A)) ∧
    (toolMsgOf (toolResultBlock "c9" (some (.obj (.cons "x" (.num 1) .nil)))) =
      ⟨"tool", some (.str "\x7b\"x\":1\x7d"), "", "c9", []⟩) := by
  refine ⟨rfl, ?_, ?_, rfl⟩
  · intro A B pending p hA hp
    rw [convertUserParts_texts A pending (p :: B) hA]
    rw [convertUserParts]
    have h1 : ¬ p.type = "text" := by rw [hp]; decide
    rw [if_neg h1, if_pos hp]
    rfl
  · intro A pending hA
    have h := convertUserParts_texts A pending [] hA
    rw [List.append_nil] at h
    rw [h]
    rfl

/-- C3 witness: instantiation of the two general parts at the blocks of
the interleaved example. -/
theorem c3_user_flush_witness :
    (convertUserParts ([textBlock "A"] ++
        toolResultBlock "call_1" (some (.str "RESULT")) :: [textBlock "B"]) [] =
      flushUser ([] ++ keptTexts [textBlock "A"]) ++
        (toolMsgOf (toolResultBlock "call_1" (some (.str "RESULT"))) ::
          convertUserParts [textBlock "B"] [])) ∧
    (convertUserParts [textBlock "B"] [] = flushUser ([] ++ keptTexts [textBlock "B"])) :=
  ⟨c3_user_flush.2.1 [textBlock "A"] [textBlock "B"] [] _ (by decide) rfl,
   c3_user_flush.2.2.1 [textBlock "B"] [] (by decide)⟩

/-! ## Forward-stream accumulation lemmas (claims C1, C4, C7, C9) -/

theorem seenIdx_append_singleton (ds : List StreamToolCall) (d : StreamToolCall)
    (i : Int) : seenIdx (ds ++ [d]) i = (seenIdx ds i || (d.index == i)) := by
  simp [seenIdx, List.any_append]

theorem lastNonEmptyId_append_singleton (ds : List StreamToolCall)
    (d : StreamToolCall) (i : Int) :
    lastNonEmptyId (ds ++ [d]) i =
      if d.index = i ∧ d.id ≠ "" then d.id else lastNonEmptyId ds i := by
  simp [lastNonEmptyId, List.foldl_append]

theorem lastNonEmptyName_append_singleton (ds : List StreamToolCall)
    (d : StreamToolCall) (i : Int) :
    lastNonEmptyName (ds ++ [d]) i =
      if d.index = i ∧ d.name ≠ "" then d.name else lastNonEmptyName ds i := by
  simp [lastNonEmptyName, List.foldl_append]

theorem catArgs_append_singleton (ds : List StreamToolCall) (d : StreamToolCall)
    (i : Int) :
    catArgs (ds ++ [d]) i =
      if d.index = i then catArgs ds i ++ d.arguments else catArgs ds i := by
  simp [catArgs, List.foldl_append]

theorem foldl_const_of_not_seen {α : Type} (f : α → StreamToolCall → α) (i : Int)
    (hf : ∀ acc d, d.index ≠ i → f acc d = acc) :
    ∀ (ds : List StreamToolCall) (acc : α), seenIdx ds i = false →
      ds.foldl f acc = acc := by
  intro ds
  induction ds with
  | nil => intro acc _; rfl
  | cons d tl ih =>
    intro acc h
    simp only [seenIdx, List.any_cons, Bool.or_eq_false_iff] at h
    obtain ⟨h1, h2⟩ := h
    rw [List.foldl_cons, hf acc d (by simpa using h1)]
    exact ih acc (by simpa [seenIdx] using h2)

theorem lastNonEmptyId_not_seen (ds : List StreamToolCall) (i : Int)
    (h : seenIdx ds i = false) : lastNonEmptyId ds i = "" := by
  exact foldl_const_of_not_seen _ i
    (fun acc d hd => by simp [hd]) ds "" h

theorem lastNonEmptyName_not_seen (ds : List StreamToolCall) (i : Int)
    (h : seenIdx ds i = false) : lastNonEmptyName ds i = "" := by
  exact foldl_const_of_not_seen _ i
    (fun acc d hd => by simp [hd]) ds "" h

theorem catArgs_not_seen (ds : List StreamToolCall) (i : Int)
    (h : seenIdx ds i = false) : catArgs ds i = "" := by
  exact foldl_const_of_not_seen _ i
    (fun acc d hd => by simp [hd]) ds "" h

theorem procLookup (ds : List StreamToolCall) (i : Int) :
    alLookup (ds.foldl fwdStepToolCall []) i = refBuf ds i := by
  induction ds using List.reverseRecOn generalizing i with
  | nil => simp [refBuf, seenIdx, alLookup]
  | append_singleton ds d ih =>
    rw [List.foldl_append, List.foldl_cons, List.foldl_nil]
    by_cases hi : d.index = i
    · subst hi
      have hb : (alLookup (ds.foldl fwdStepToolCall []) d.index).getD
          ⟨"", "", d.index, ""⟩ =
          ⟨lastNonEmptyId ds d.index, lastNonEmptyName ds d.index, d.index,
           catArgs ds d.index⟩ := by
        rw [ih]
        cases hseen : seenIdx ds d.index
        · rw [refBuf, if_neg (by simp [hseen])]
          rw [lastNonEmptyId_not_seen ds d.index hseen,
              lastNonEmptyName_not_seen ds d.index hseen,
              catArgs_not_seen ds d.index hseen]
          rfl
        · rw [refBuf, if_pos (by simp [hseen])]
          rfl
      have hseen : seenIdx (ds ++ [d]) d.index = true := by
        rw [seenIdx_append_singleton]; simp
      simp only [fwdStepToolCall, hb, alLookup_upsert_self]
      by_cases har : d.arguments = "" <;>
        simp [refBuf, hseen, lastNonEmptyId_append_singleton,
              lastNonEmptyName_append_singleton, catArgs_append_singleton, har]
    · simp only [fwdStepToolCall]
      rw [alLookup_upsert_ne _ _ _ _ (fun hh => hi hh.symm)]
      rw [ih]
      rw [refBuf, refBuf]
      rw [seenIdx_append_singleton]
      have hne : (d.index == i) = false := by simp [hi]
      rw [hne, Bool.or_false]
      rw [lastNonEmptyId_append_singleton, lastNonEmptyName_append_singleton,
          catArgs_append_singleton]
      simp [hi]

theorem procKeysMem (ds : List StreamToolCall) :
    ∀ (m : List (Int × ToolBuf)) (j : Int),
      (j ∈ (ds.foldl fwdStepToolCall m).map Prod.fst ↔
        j ∈ m.map Prod.fst ∨ j ∈ ds.map StreamToolCall.index) := by
  induction ds with
  | nil => intro m j; simp
  | cons d tl ih =>
    intro m j
    rw [List.foldl_cons]
    rw [ih]
    have hstep : (fwdStepToolCall m d).map Prod.fst =
        (alUpsert m d.index ((alLookup m d.index).getD ⟨"", "", d.index, ""⟩ |>
          (fun b => ⟨if d.id ≠ "" then d.id else b.id,
                     if d.name ≠ "" then d.name else b.name, b.idx,
                     if d.arguments ≠ "" then b.args ++ d.arguments else b.args⟩))).map
          Prod.fst := rfl
    rw [hstep, alUpsert_keys]
    by_cases hk : d.index ∈ m.map Prod.fst
    · rw [if_pos hk]
      simp only [List.map_cons, List.mem_cons]
      constructor
      · tauto
      · rintro (h | h | h)
        · exact Or.inl h
        · exact Or.inl (by rw [h]; exact hk)
        · exact Or.inr h
    · rw [if_neg hk]
      simp only [List.map_cons, List.mem_cons, List.mem_append,
        List.mem_singleton]
      tauto

theorem procKeysNodup (ds : List StreamToolCall) :
    ∀ (m : List (Int × ToolBuf)), (m.map Prod.fst).Nodup →
      ((ds.foldl fwdStepToolCall m).map Prod.fst).Nodup := by
  induction ds with
  | nil => intro m h; exact h
  | cons d tl ih =>
    intro m h
    rw [List.foldl_cons]
    apply ih
    show ((alUpsert m d.index _).map Prod.fst).Nodup
    rw [alUpsert_keys]
    by_cases hk : d.index ∈ m.map Prod.fst
    · simpa [hk] using h
    · simp only [if_neg hk]
      apply List.Nodup.append h (List.nodup_singleton _)
      intro x hx hx2
      rw [List.mem_singleton] at hx2
      subst hx2
      exact hk hx

theorem sortKeys_eq (ds : List StreamToolCall) :
    List.insertionSort (· ≤ ·) ((ds.foldl fwdStepToolCall []).map Prod.fst) =
      callIdxsSorted ds := by
  have hperm : ((ds.foldl fwdStepToolCall
      ([] : List (Int × ToolBuf))).map Prod.fst).Perm
      ((ds.map StreamToolCall.index).dedup) := by
    rw [List.perm_ext_iff_of_nodup (procKeysNodup ds [] (by simp))
      (List.nodup_dedup _)]
    intro a
    rw [procKeysMem ds [] a, List.mem_dedup]
    simp
  exact List.eq_of_perm_of_sorted
    (((List.perm_insertionSort _ _).trans hperm).trans
      (List.perm_insertionSort _ _).symm)
    (List.sorted_insertionSort _ _) (List.sorted_insertionSort _ _)

theorem fwdConsume_spec (lines : List BLine) :
    ∀ s : FwdState,
      fwdConsume s lines =
        (⟨s.sentTextStart || !(textPieces lines).isEmpty,
          s.totalText ++ catTexts ((framedDeltas lines).map StreamDelta.content),
          (toolDeltasOf lines).foldl fwdStepToolCall s.toolByIdx⟩,
         fwdBodyEvents s.sentTextStart (textPieces lines)) := by
  induction lines with
  | nil =>
    intro s
    simp [fwdConsume, textPieces, framedDeltas, toolDeltasOf, catTexts,
      fwdBodyEvents]
  | cons l ls ih =>
    intro s
    cases l with
    | blank =>
      simpa [fwdConsume, textPieces, framedDeltas, toolDeltasOf] using ih s
    | badJson =>
      simpa [fwdConsume, textPieces, framedDeltas, toolDeltasOf] using ih s
    | done =>
      simp [fwdConsume, textPieces, framedDeltas, toolDeltasOf, catTexts,
        fwdBodyEvents]
    | chunk c =>
      obtain ⟨cid, cob, cmd, ccs⟩ := c
      cases ccs with
      | nil =>
        simpa [fwdConsume, textPieces, framedDeltas, toolDeltasOf] using ih s
      | cons ch rest =>
        by_cases hc : ch.delta.content = "" <;> cases hs : s.sentTextStart <;>
          simp [fwdConsume, ih, framedDeltas, textPieces, toolDeltasOf,
            fwdStepChunk, fwdTextEvents, fwdBodyEvents, catTexts,
            List.filter_cons, hc, hs, List.foldl_append, String.append_assoc]

theorem flatMap_congr_mem {α β : Type} (l : List α) (f g : α → List β)
    (h : ∀ a ∈ l, f a = g a) : l.flatMap f = l.flatMap g := by
  induction l with
  | nil => rfl
  | cons a tl ih =>
    simp only [List.flatMap_cons]
    rw [h a (by simp), ih (fun b hb => h b (by simp [hb]))]

theorem snd_mem_of_mem_enumFrom {α : Type} :
    ∀ (l : List α) (n : Nat) (p : Nat × α), p ∈ l.enumFrom n → p.2 ∈ l := by
  intro l
  induction l with
  | nil => intro n p hp; simp [List.enumFrom] at hp
  | cons a tl ih =>
    intro n p hp
    rw [List.enumFrom] at hp
    rcases List.mem_cons.mp hp with h | h
    · subst h; simp
    · exact List.mem_cons.mpr (Or.inr (ih (n + 1) p h))

theorem snd_mem_of_mem_enum {α : Type} {l : List α} {p : Nat × α}
    (h : p ∈ l.enum) : p.2 ∈ l :=
  snd_mem_of_mem_enumFrom l 0 p h

theorem exists_fst_mem_enumFrom {α : Type} :
    ∀ (l : List α) (a : α), a ∈ l → ∀ n, ∃ j, (j, a) ∈ l.enumFrom n := by
  intro l
  induction l with
  | nil => intro a ha; simp at ha
  | cons b tl ih =>
    intro a ha n
    rcases List.mem_cons.mp ha with h | h
    · subst h
      exact ⟨n, by rw [List.enumFrom]; exact List.mem_cons_self _ _⟩
    · obtain ⟨j, hj⟩ := ih a h (n + 1)
      exact ⟨j, by rw [List.enumFrom]; exact List.mem_cons.mpr (Or.inr hj)⟩

theorem fwdEndEvents_spec (parse : String → Option Json) (b : Bool) (t : String)
    (ds : List StreamToolCall) :
    fwdEndEvents parse ⟨b, t, ds.foldl fwdStepToolCall []⟩ =
      ((if b then [AEvent.content_block_stop 0] else []) ++
        specToolSegmentWith (inputOfArgs parse) 1 ds) ++
        [.message_delta "end_turn" 0 (t.utf8ByteSize / 4), .message_stop] := by
  unfold fwdEndEvents
  congr 1
  congr 1
  rw [sortKeys_eq]
  unfold specToolSegmentWith
  apply flatMap_congr_mem
  intro p hp
  have hidx : p.2 ∈ (ds.map StreamToolCall.index).dedup := by
    have h1 := snd_mem_of_mem_enum hp
    unfold callIdxsSorted at h1
    exact (List.mem_insertionSort _).mp h1
  have hseen : seenIdx ds p.2 = true := by
    rw [List.mem_dedup, List.mem_map] at hidx
    obtain ⟨d0, hd0, hd0i⟩ := hidx
    simp only [seenIdx, List.any_eq_true]
    exact ⟨d0, hd0, by simp [hd0i]⟩
  simp [procLookup, refBuf, hseen]

theorem fwdMain (parse : String → Option Json) (lines : List BLine) :
    ConvertOpenAIStreamToAnthropic parse lines =
      .message_start ::
        (fwdBodyEvents false (textPieces lines) ++
         (((if !(textPieces lines).isEmpty then [AEvent.content_block_stop 0]
            else []) ++
           specToolSegmentWith (inputOfArgs parse) 1 (toolDeltasOf lines)) ++
          [.message_delta "end_turn" 0
             ((catTexts ((framedDeltas lines).map StreamDelta.content)).utf8ByteSize / 4),
           .message_stop])) := by
  unfold ConvertOpenAIStreamToAnthropic
  rw [fwdConsume_spec lines fwdInit]
  show AEvent.message_start ::
      (fwdBodyEvents false (textPieces lines) ++
        fwdEndEvents parse
          ⟨false || !(textPieces lines).isEmpty,
           "" ++ catTexts ((framedDeltas lines).map StreamDelta.content),
           (toolDeltasOf lines).foldl fwdStepToolCall []⟩) = _
  rw [fwdEndEvents_spec]
  simp

/-! ## Claim C7: forward accumulator invariant -/

/-- C7: after consuming any (arbitrary) forward input, the buffer stored
for call index `i` exists exactly when some processed tool-call delta
referenced `i`, and then holds the latest non-empty id, the latest
non-empty name and the in-order concatenation of every argument fragment
for `i` — independent of the order and interleaving of id, name and
argument deltas and tolerant of repeats. -/
theorem c7_accumulator_invariant (lines : List BLine) (i : Int) :
    alLookup ((fwdConsume fwdInit lines).1.toolByIdx) i =
      refBuf (toolDeltasOf lines) i := by
  rw [fwdConsume_spec lines fwdInit]
  exact procLookup (toolDeltasOf lines) i

/-! ## Claim C9: final message_delta and message_stop -/

theorem catTexts_filter_ne (l : List String) :
    catTexts (l.filter (fun s => s ≠ "")) = catTexts l := by
  induction l with
  | nil => rfl
  | cons a tl ih =>
    rw [List.filter_cons]
    by_cases ha : a = ""
    · subst ha
      rw [if_neg (by simp)]
      simpa [catTexts] using ih
    · rw [if_pos (by simpa using ha)]
      simp only [catTexts]
      rw [ih]

theorem textPhase_not_final (e : AEvent) (h : isTextPhase e = true) :
    (!(isMsgDelta e) && !(isMsgStop e)) = true := by
  cases e <;> simp_all [isMsgDelta, isMsgStop, isTextPhase]

theorem specSeg_event (f : String → Json) (base : Nat) (ds : List StreamToolCall)
    (e : AEvent) (h : e ∈ specToolSegmentWith f base ds) :
    (!(isMsgDelta e) && !(isMsgStop e)) = true := by
  unfold specToolSegmentWith at h
  rw [List.mem_flatMap] at h
  obtain ⟨p, _, he⟩ := h
  rcases List.mem_cons.mp he with h1 | h1
  · subst h1; rfl
  · rw [List.mem_singleton] at h1; subst h1; rfl

theorem fwdBodyEvents_textPhase : ∀ (ps : List String) (b : Bool),
    (fwdBodyEvents b ps).all isTextPhase = true := by
  intro ps
  induction ps with
  | nil => intro b; cases b <;> rfl
  | cons p tl ih =>
    intro b
    cases b <;> simp [fwdBodyEvents, isTextPhase, ih]

/-- C9 counterexample: a stream delivering the four-character text
`éééé` (eight UTF-8 bytes) yields an output-token estimate of 2, whereas
the character count divided by 4 is 1 — the estimate divides the byte
length, not the number of characters. -/
theorem c9_counterexample :
    ConvertOpenAIStreamToAnthropic parseDemo
        [.chunk ⟨"1", "chat.completion.chunk", "gpt",
           [⟨0, ⟨"", "éééé", []⟩, ""⟩]⟩, .done] =
      [.message_start, .content_block_start 0 .text,
       .content_block_delta 0 "éééé", .content_block_stop 0,
       .message_delta "end_turn" 0 2, .message_stop] ∧
    ("éééé".length / 4 = 1) ∧ (2 : Nat) ≠ 1 := by
  exact ⟨rfl, by decide, by decide⟩

/-- C9 amended: every terminated forward stream ends with exactly one
`message_delta` (stop reason end_turn, input tokens 0, output tokens
equal to the UTF-8 byte length — what the Go `len` computes — of the
concatenated text deltas divided by 4) followed by exactly one
`message_stop`: no earlier event is a `message_delta` or `message_stop`. -/
theorem c9_amended (parse : String → Option Json) (lines : List BLine) :
    ∃ pre, ConvertOpenAIStreamToAnthropic parse lines =
        pre ++ [.message_delta "end_turn" 0
                  ((catTexts (textPieces lines)).utf8ByteSize / 4),
                .message_stop] ∧
      pre.all (fun e => !(isMsgDelta e) && !(isMsgStop e)) = true := by
  refine ⟨.message_start :: (fwdBodyEvents false (textPieces lines) ++
      ((if !(textPieces lines).isEmpty then [AEvent.content_block_stop 0]
        else []) ++
       specToolSegmentWith (inputOfArgs parse) 1 (toolDeltasOf lines))), ?_, ?_⟩
  · rw [fwdMain]
    have hc : catTexts (textPieces lines) =
        catTexts ((framedDeltas lines).map StreamDelta.content) := by
      unfold textPieces
      exact catTexts_filter_ne _
    rw [hc]
    simp [List.append_assoc]
  · rw [List.all_eq_true]
    intro e he
    simp only [List.mem_cons, List.mem_append] at he
    rcases he with h | h | h | h
    · subst h; rfl
    · exact textPhase_not_final e
        (List.all_eq_true.mp (fwdBodyEvents_textPhase _ _) e h)
    · rcases hb : !(textPieces lines).isEmpty with _ | _ <;> rw [hb] at h
      · simp at h
      · simp at h
        subst h
        rfl
    · exact specSeg_event _ _ _ e h

/-! ## Claim C1: end-of-stream tool-call emission -/

/-- C1 counterexample: a terminated stream with one buffered tool call
and no text emits the tool content block at index 1, not at index 0 as
the claim requires when no text was sent (the source always assigns
indices starting one past the text slot). -/
theorem c1_counterexample :
    ConvertOpenAIStreamToAnthropic parseDemo
        [.chunk ⟨"1", "chat.completion.chunk", "gpt",
           [⟨0, ⟨"", "", [⟨"call_bad", "function", 0, "do", ""⟩]⟩, ""⟩]⟩, .done] =
      [.message_start,
       .content_block_start 1 (.tool_use "call_bad" "do" (.obj .nil)),
       .content_block_stop 1,
       .message_delta "end_turn" 0 0, .message_stop] ∧
    ((ConvertOpenAIStreamToAnthropic parseDemo
        [.chunk ⟨"1", "chat.completion.chunk", "gpt",
           [⟨0, ⟨"", "", [⟨"call_bad", "function", 0, "do", ""⟩]⟩, ""⟩]⟩, .done]).all
      (fun e => match e with
        | .content_block_start 0 _ => false
        | _ => true) = true) := by
  exact ⟨rfl, rfl⟩

/-- C1 amended: for any JSON parse function that fails on blank text,
after the text phase the terminated forward stream emits exactly the
buffered tool calls sorted by ascending original call index, at
consecutive content-block indices starting at 1 (one past the text
slot, whether or not text was sent), each as one `content_block_start`
carrying the fully parsed accumulated arguments (empty object on parse
failure) immediately followed by `content_block_stop` for the same
index, and nothing in between — followed by the final `message_delta`
and `message_stop`. -/
theorem c1_amended (parse : String → Option Json)
    (hWS : ∀ s, goTrimSpace s = "" → parse s = none) (lines : List BLine) :
    ∃ pre n, ConvertOpenAIStreamToAnthropic parse lines =
        pre ++ (specToolSegmentWith (specInput parse) 1 (toolDeltasOf lines) ++
          [.message_delta "end_turn" 0 n, .message_stop]) ∧
      pre.all isTextPhase = true := by
  have hin : ∀ raw, inputOfArgs parse raw = specInput parse raw := by
    intro raw
    unfold inputOfArgs specInput
    by_cases ht : goTrimSpace raw = ""
    · rw [hWS raw ht]
      simp [ht]
    · simp [ht]
  have hseg : specToolSegmentWith (inputOfArgs parse) 1 (toolDeltasOf lines) =
      specToolSegmentWith (specInput parse) 1 (toolDeltasOf lines) := by
    unfold specToolSegmentWith
    apply flatMap_congr_mem
    intro p _
    rw [hin]
  refine ⟨.message_start :: (fwdBodyEvents false (textPieces lines) ++
      (if !(textPieces lines).isEmpty then [AEvent.content_block_stop 0]
       else [])),
      (catTexts ((framedDeltas lines).map StreamDelta.content)).utf8ByteSize / 4,
      ?_, ?_⟩
  · rw [fwdMain, hseg]
    simp [List.append_assoc]
  · rw [List.all_eq_true]
    intro e he
    simp only [List.mem_cons, List.mem_append] at he
    rcases he with h | h | h
    · subst h; rfl
    · exact List.all_eq_true.mp (fwdBodyEvents_textPhase _ _) e h
    · rcases hb : !(textPieces lines).isEmpty with _ | _ <;> rw [hb] at h
      · simp at h
      · simp at h
        subst h
        rfl

/-- C1 amended witness: instantiation at the demo parser (which fails on
blank strings by construction) and a concrete two-call stream. -/
theorem c1_amended_witness :
    ∃ pre n, ConvertOpenAIStreamToAnthropic parseDemo
        [.chunk ⟨"1", "chat.completion.chunk", "gpt",
           [⟨0, ⟨"", "", [⟨"c2", "function", 7, "beta", ""⟩,
                          ⟨"c1", "function", 3, "alpha", ""⟩]⟩, ""⟩]⟩, .done] =
        pre ++ (specToolSegmentWith (specInput parseDemo) 1
            (toolDeltasOf
              [.chunk ⟨"1", "chat.completion.chunk", "gpt",
                 [⟨0, ⟨"", "", [⟨"c2", "function", 7, "beta", ""⟩,
                                ⟨"c1", "function", 3, "alpha", ""⟩]⟩, ""⟩]⟩, .done]) ++
          [.message_delta "end_turn" 0 n, .message_stop]) ∧
      pre.all isTextPhase = true :=
  c1_amended parseDemo
    (fun s hs => by simp [parseDemo, hs]) _

/-! ## Claim C4: asymmetric invalid-argument recovery -/

/-- C4: a tool call whose argument string does not parse as JSON is
recovered asymmetrically: the non-streaming mapper keeps the response
and gives the block the input object with the raw string under the key
underscore, while the forward stream translator emits the aggregated
tool-use block with the empty object as input. -/
theorem c4_invalid_args_asymmetry :
    (∀ (parse : String → Option Json) (msgId rm : String)
        (oresp : OpenAIChatResponse) (c : OChoice) (rest : List OChoice)
        (tc : OpenAIToolCall),
        oresp.choices = c :: rest → tc ∈ c.message.tool_calls →
        parse tc.function.arguments = none →
        ∃ r, mapOpenAIToAnthropic parse msgId oresp rm = .ok r ∧
          ABlockOut.tool_use tc.id tc.function.name
            (.obj (.cons "_" (.str tc.function.arguments) .nil)) ∈ r.content) ∧
    (∀ (parse : String → Option Json) (lines : List BLine) (k : Int),
        seenIdx (toolDeltasOf lines) k = true →
        parse (catArgs (toolDeltasOf lines) k) = none →
        ∃ j, AEvent.content_block_start j
            (.tool_use (lastNonEmptyId (toolDeltasOf lines) k)
              (lastNonEmptyName (toolDeltasOf lines) k) (.obj .nil)) ∈
          ConvertOpenAIStreamToAnthropic parse lines) := by
  constructor
  · intro parse msgId rm oresp c rest tc hc htc hparse
    obtain ⟨i, o, md, cs, u⟩ := oresp
    simp only at hc
    subst hc
    refine ⟨_, rfl, ?_⟩
    show _ ∈ _ ++ c.message.tool_calls.map _
    apply List.mem_append.mpr
    right
    apply List.mem_map.mpr
    exact ⟨tc, htc, by rw [hparse]⟩
  · intro parse lines k hseen hparse
    have hmem : k ∈ callIdxsSorted (toolDeltasOf lines) := by
      unfold callIdxsSorted
      apply (List.mem_insertionSort _).mpr
      rw [List.mem_dedup]
      simp only [seenIdx, List.any_eq_true] at hseen
      obtain ⟨d0, hd0, hd0i⟩ := hseen
      exact List.mem_map.mpr ⟨d0, hd0, by simpa using hd0i⟩
    obtain ⟨j0, hj0⟩ := exists_fst_mem_enumFrom _ k hmem 0
    refine ⟨j0 + 1, ?_⟩
    rw [fwdMain]
    apply List.mem_cons.mpr
    right
    apply List.mem_append.mpr
    right
    apply List.mem_append.mpr
    left
    apply List.mem_append.mpr
    right
    unfold specToolSegmentWith
    apply List.mem_flatMap.mpr
    refine ⟨(j0, k), hj0, ?_⟩
    have : inputOfArgs parse (catArgs (toolDeltasOf lines) k) = .obj .nil := by
      unfold inputOfArgs
      rw [hparse]
      by_cases ht : goTrimSpace (catArgs (toolDeltasOf lines) k) = "" <;>
        simp [ht]
    rw [this]
    exact List.mem_cons_self _ _

/-- C4 witness: concrete instantiation of both parts, with the literal
`not_json` in the non-streaming response and `NOT_JSON` as the whole
argument stream of the only streamed call. -/
theorem c4_invalid_args_asymmetry_witness :
    (∃ r, mapOpenAIToAnthropic parseDemo "msg_1"
        ⟨"r1", "chat.completion", "gpt",
         [⟨0, "stop", ⟨"assistant", none, "", "",
            [⟨"t1", "function", ⟨"weird", "not_json"⟩⟩]⟩⟩], none⟩ "claude-x"
        = .ok r ∧
      ABlockOut.tool_use "t1" "weird"
        (.obj (.cons "_" (.str "not_json") .nil)) ∈ r.content) ∧
    (∃ j, AEvent.content_block_start j
        (.tool_use (lastNonEmptyId (toolDeltasOf
            [.chunk ⟨"1", "chat.completion.chunk", "gpt",
               [⟨0, ⟨"", "", [⟨"call_bad", "function", 0, "do", "NOT_JSON"⟩]⟩, ""⟩]⟩,
             .done]) 0)
          (lastNonEmptyName (toolDeltasOf
            [.chunk ⟨"1", "chat.completion.chunk", "gpt",
               [⟨0, ⟨"", "", [⟨"call_bad", "function", 0, "do", "NOT_JSON"⟩]⟩, ""⟩]⟩,
             .done]) 0) (.obj .nil)) ∈
      ConvertOpenAIStreamToAnthropic parseDemo
        [.chunk ⟨"1", "chat.completion.chunk", "gpt",
           [⟨0, ⟨"", "", [⟨"call_bad", "function", 0, "do", "NOT_JSON"⟩]⟩, ""⟩]⟩,
         .done]) :=
  ⟨c4_invalid_args_asymmetry.1 parseDemo "msg_1" "claude-x"
      ⟨"r1", "chat.completion", "gpt",
       [⟨0, "stop", ⟨"assistant", none, "", "",
          [⟨"t1", "function", ⟨"weird", "not_json"⟩⟩]⟩⟩], none⟩
      ⟨0, "stop", ⟨"assistant", none, "", "",
          [⟨"t1", "function", ⟨"weird", "not_json"⟩⟩]⟩⟩ []
      ⟨"t1", "function", ⟨"weird", "not_json"⟩⟩ rfl
      (List.mem_singleton.mpr rfl) rfl,
   c4_invalid_args_asymmetry.2 parseDemo _ 0 (by decide) rfl⟩

/-! ## Claim C2: reverse translator target call indices -/

theorem revStep_nextToolIdx (s : RevState) (e : AEventLine) :
    (revStep s e).1.nextToolIdx =
      if isToolStartEv e then s.nextToolIdx + 1 else s.nextToolIdx := by
  cases e with
  | message_start => by_cases h : s.roleSent <;> simp [revStep, isToolStartEv, h]
  | content_block_start o =>
    by_cases h : o.cbType = "tool_use" <;> simp [revStep, isToolStartEv, h]
  | content_block_delta o =>
    by_cases h1 : o.dtype = "text_delta"
    · simp [revStep, isToolStartEv, h1]
    · by_cases h2 : o.dtype = "input_json_delta"
      · cases hl : alLookup s.cmap o.index <;>
          simp [revStep, isToolStartEv, h1, h2, hl]
      · simp [revStep, isToolStartEv, h1, h2]
  | content_block_stop => simp [revStep, isToolStartEv]
  | message_delta => simp [revStep, isToolStartEv]
  | message_stop => simp [revStep, isToolStartEv]
  | skipped => simp [revStep, isToolStartEv]

theorem revRun_nextToolIdx (es : List AEventLine) :
    ∀ s : RevState,
      ((revRun s es).1).nextToolIdx = s.nextToolIdx + countToolStarts es := by
  induction es with
  | nil => intro s; simp [revRun, countToolStarts]
  | cons e tl ih =>
    intro s
    show ((revRun (revStep s e).1 tl).1).nextToolIdx = _
    rw [ih, revStep_nextToolIdx]
    by_cases h : isToolStartEv e <;>
      (simp [h, countToolStarts, List.filter_cons]; try omega)

theorem revStep_cmap_of_not_start (s : RevState) (e : AEventLine) (i : Int)
    (h : (match e with
          | .content_block_start o => o.cbType == "tool_use" && o.index == i
          | _ => false) = false) :
    alLookup (revStep s e).1.cmap i = alLookup s.cmap i := by
  cases e with
  | message_start => by_cases hr : s.roleSent <;> simp [revStep, hr]
  | content_block_start o =>
    by_cases ht : o.cbType = "tool_use"
    · simp only [ht] at h
      simp only [revStep, ht, if_pos rfl]
      have hne : i ≠ o.index := by
        intro hh
        simp [hh] at h
      exact alLookup_upsert_ne _ _ _ _ hne
    · simp [revStep, ht]
  | content_block_delta o =>
    by_cases h1 : o.dtype = "text_delta"
    · simp [revStep, h1]
    · by_cases h2 : o.dtype = "input_json_delta"
      · cases hl : alLookup s.cmap o.index <;> simp [revStep, h1, h2, hl]
      · simp [revStep, h1, h2]
  | content_block_stop => simp [revStep]
  | message_delta => simp [revStep]
  | message_stop => simp [revStep]
  | skipped => simp [revStep]

theorem revRun_cmap (es : List AEventLine) (i : Int)
    (h : hasToolStartAt i es = false) :
    ∀ s : RevState, alLookup ((revRun s es).1).cmap i = alLookup s.cmap i := by
  induction es with
  | nil => intro s; rfl
  | cons e tl ih =>
    intro s
    simp only [hasToolStartAt, List.any_cons, Bool.or_eq_false_iff] at h
    obtain ⟨h1, h2⟩ := h
    show alLookup ((revRun (revStep s e).1 tl).1).cmap i = _
    rw [ih (by simpa [hasToolStartAt] using h2)]
    exact revStep_cmap_of_not_start s e i h1

/-- C2: the reverse stream translator assigns each tool-use
`content_block_start` a target call index from a sequential counter
(the number of earlier tool-use starts, hence starting at 0 and
independent of the block index), and every argument-bearing chunk of
that invocation carries the same assigned index, as long as no later
tool-use start reuses its block index before the argument delta. The
closed last part runs the full translator on the interleaved two-tool
example (block indices 1 and 2 named alpha and beta) and yields target
indices 0 and 1 with matching indices on every argument chunk. -/
theorem c2_sequential_target_indices :
    (∀ (es1 es2 : List AEventLine) (o : CBStart) (d : CBDelta),
        o.cbType = "tool_use" → d.dtype = "input_json_delta" →
        d.index = o.index → hasToolStartAt o.index es2 = false →
        (revStep (revRun revInit es1).1 (.content_block_start o)).2 =
          [mkToolStartChunk o.id (countToolStarts es1) o.name] ∧
        (revStep (revRun (revStep (revRun revInit es1).1
            (.content_block_start o)).1 es2).1 (.content_block_delta d)).2 =
          [mkArgsChunk (countToolStarts es1) (pieceOf d)]) ∧
    (ConvertAnthropicStreamToOpenAI
        [.message_start,
         .content_block_start ⟨1, "tool_use", "call_a", "alpha"⟩,
         .content_block_delta ⟨1, "input_json_delta", "", "\x7b\"a\":1", none⟩,
         .content_block_start ⟨2, "tool_use", "call_b", "beta"⟩,
         .content_block_delta ⟨2, "input_json_delta", "", "\x7b\"q\":\"x\"", none⟩,
         .content_block_delta ⟨1, "input_json_delta", "", ",\"b\":2\x7d", none⟩,
         .message_stop] =
      [mkRoleChunk,
       mkToolStartChunk "call_a" 0 "alpha",
       mkArgsChunk 0 "\x7b\"a\":1",
       mkToolStartChunk "call_b" 1 "beta",
       mkArgsChunk 1 "\x7b\"q\":\"x\"",
       mkArgsChunk 0 ",\"b\":2\x7d",
       mkStopChunk]) := by
  constructor
  · intro es1 es2 o d h1 h2 h3 h4
    have hn : (revRun revInit es1).1.nextToolIdx = countToolStarts es1 := by
      rw [revRun_nextToolIdx]
      simp [revInit]
    constructor
    · simp [revStep, h1, hn]
    · have hstart : alLookup ((revStep (revRun revInit es1).1
          (.content_block_start o)).1).cmap o.index =
          some (countToolStarts es1) := by
        simp [revStep, h1, hn, alLookup_upsert_self]
      have hkeep := revRun_cmap es2 o.index h4
        (revStep (revRun revInit es1).1 (.content_block_start o)).1
      rw [hstart] at hkeep
      generalize (revRun (revStep (revRun revInit es1).1
          (.content_block_start o)).1 es2).1 = s2 at hkeep ⊢
      simp [revStep, h2, h3, hkeep]
  · rfl

/-- C2 witness: instantiation of the general part at a stream whose
second tool (block index 2) starts between the first tool (block index
1) and its argument fragment. -/
theorem c2_sequential_target_indices_witness :
    (revStep (revRun revInit [.message_start]).1
        (.content_block_start ⟨1, "tool_use", "call_a", "alpha"⟩)).2 =
      [mkToolStartChunk "call_a" (countToolStarts [.message_start]) "alpha"] ∧
    (revStep (revRun (revStep (revRun revInit [.message_start]).1
        (.content_block_start ⟨1, "tool_use", "call_a", "alpha"⟩)).1
        [.content_block_start ⟨2, "tool_use", "call_b", "beta"⟩]).1
        (.content_block_delta ⟨1, "input_json_delta", "", "frag", none⟩)).2 =
      [mkArgsChunk (countToolStarts [.message_start])
        (pieceOf ⟨1, "input_json_delta", "", "frag", none⟩)] :=
  c2_sequential_target_indices.1 [.message_start]
    [.content_block_start ⟨2, "tool_use", "call_b", "beta"⟩]
    ⟨1, "tool_use", "call_a", "alpha"⟩
    ⟨1, "input_json_delta", "", "frag", none⟩ rfl rfl rfl (by decide)

end Bridge
